import Mathlib

/-!
Verification of the `pl-code` element (`elements/pl-code/pl-code.py`).

The Python source is shallowly embedded below: strings are `String`/`List Char`,
Python `int` is `Int`, fallible operations return `Option`/`Except`.  The
embedding follows the source line by line; the few places where an upstream
pygments stage (not part of this repository) is needed are modelled from the
specification and say so in their doc comments.
-/

/-- Embedding of Python's whitespace test for the characters relevant to
`str.strip()` and `str.isspace()` (ASCII whitespace: space, tab, newline,
carriage return, vertical tab, form feed). -/
def isPyWS (c : Char) : Bool :=
  c == ' ' || c == '\t' || c == '\n' || c == '\r' || c == '\x0b' || c == '\x0c'

/-- Embedding of Python's `str.strip()`: remove leading and trailing
whitespace. -/
def trimWS (cs : List Char) : List Char :=
  ((cs.dropWhile isPyWS).reverse.dropWhile isPyWS).reverse

/-- Embedding of Python's `str.split(sep)` for a one-character separator:
`"".split(sep) = [""]`, and every occurrence of `sep` starts a new part. -/
def splitChars (sep : Char) : List Char → List (List Char)
  | [] => [[]]
  | c :: cs =>
    match splitChars sep cs with
    | [] => [[c]]
    | h :: t => if c == sep then [] :: h :: t else (c :: h) :: t

/-- Value of a string of decimal digits (used only when all characters are
digits). -/
def digitVal (cs : List Char) : Nat :=
  cs.foldl (fun a c => a * 10 + (c.toNat - 48)) 0

/-- Digit-string parsing: `some` exactly when the character list is a nonempty
run of decimal digits. -/
def digitsToNat (cs : List Char) : Option Nat :=
  if !cs.isEmpty && cs.all Char.isDigit then some (digitVal cs) else none

/-- Embedding of Python's `int(...)` on an already-stripped string: an optional
sign followed by a nonempty run of decimal digits; anything else raises
`ValueError`, i.e. returns `none`. -/
def pyIntCore (cs : List Char) : Option Int :=
  match cs with
  | [] => none
  | c :: ds =>
    if c == '-' then (digitsToNat ds).map (fun n => -(n : Int))
    else if c == '+' then (digitsToNat ds).map (fun n => (n : Int))
    else (digitsToNat (c :: ds)).map (fun n => (n : Int))

/-- Embedding of Python's `int(...)`: `int` strips surrounding whitespace
itself. -/
def pyInt (cs : List Char) : Option Int :=
  pyIntCore (trimWS cs)

/-- Embedding of Python's `range(a, b)` over `Int`, as a list. -/
def intRange (a b : Int) : List Int :=
  (List.range (b - a).toNat).map (fun k => a + (k : Int))

/-- Embedding of the body of the `for component in components` loop of
`parse_highlight_lines` (pl-code.py lines 65-81): strip the component, try
`int(component)` (the component is already stripped, so `int`'s own stripping
is a no-op and `pyIntCore` is applied directly); on failure split on `'-'`,
require exactly two parts, parse both with `int` (which strips each part), and
produce the inclusive range via `range(start, end + 1)`. -/
def parseComponent (comp : String) : Option (List Int) :=
  match pyIntCore (trimWS comp.data) with
  | some n => some [n]
  | none =>
    match splitChars '-' (trimWS comp.data) with
    | [n0, n1] =>
      match pyInt n0, pyInt n1 with
      | some s, some e => some (intRange s (e + 1))
      | _, _ => none
    | _ => none

/-- Embedding of the accumulation across components in
`parse_highlight_lines`: results are appended in order, and any failing
component makes the whole parse return `None`. -/
def parseComponents : List String → Option (List Int)
  | [] => some []
  | c :: cs =>
    match parseComponent c, parseComponents cs with
    | some l, some rest => some (l ++ rest)
    | _, _ => none

/-- String-level wrapper for `splitChars`. -/
def pySplit (sep : Char) (s : String) : List String :=
  (splitChars sep s.data).map (fun cs => String.mk cs)

/-- Embedding of `parse_highlight_lines` (pl-code.py lines 58-82). -/
def parse_highlight_lines (s : String) : Option (List Int) :=
  parseComponents (pySplit ',' s)

/-- The specification side of the range grammar, written from the spec text:
`spec := term (',' term)*`; `term := INTEGER | INTEGER '-' INTEGER`, where
INTEGER is a nonempty run of decimal digits, whitespace around terms and around
the number literals is trimmed, a bare integer denotes a singleton, and `a-b`
denotes the inclusive range `[a, b]` (empty when `a > b`).  Used only to be
compared against `parseComponent`, which is the embedding of the source. -/
def specTermLines (comp : String) : Option (List Int) :=
  if !(trimWS comp.data).isEmpty && (trimWS comp.data).all Char.isDigit then
    some [(digitVal (trimWS comp.data) : Int)]
  else
    match splitChars '-' (trimWS comp.data) with
    | [n0, n1] =>
      if (!(trimWS n0).isEmpty && (trimWS n0).all Char.isDigit)
          && (!(trimWS n1).isEmpty && (trimWS n1).all Char.isDigit) then
        some (intRange (digitVal (trimWS n0)) ((digitVal (trimWS n1) : Int) + 1))
      else none
    | _ => none

/-- The highlight-wrapper span of `HighlightingHtmlFormatter._highlight_lines`
(pl-code.py line 53): the f-string
`<span class="pl-code-highlighted-line" style="background-color: ...">...</span>`. -/
def wrapHl (hl_color value : String) : String :=
  "<span class=\"pl-code-highlighted-line\" style=\"background-color: "
    ++ hl_color ++ "\">" ++ value ++ "</span>"

/-- Embedding of the loop of `HighlightingHtmlFormatter._highlight_lines`
(pl-code.py lines 49-55), with the running `enumerate` index made explicit:
for each pair `(t, value)`, if `t != 1` the pair is first re-emitted
unchanged, and then `(1, value)` is emitted, wrapped in the highlight span
when `i + 1` is in `hl_lines`. -/
def hlAux (hl_lines : List Int) (hl_color : String) : Nat → List (Nat × String) → List (Nat × String)
  | _, [] => []
  | i, (t, value) :: rest =>
    (if t ≠ 1 then [(t, value)] else [])
      ++ [(1, if ((i : Int) + 1) ∈ hl_lines then wrapHl hl_color value else value)]
      ++ hlAux hl_lines hl_color (i + 1) rest

/-- Embedding of `HighlightingHtmlFormatter._highlight_lines`
(pl-code.py lines 44-55). -/
def highlight_lines (hl_lines : List Int) (hl_color : String)
    (tokensource : List (Nat × String)) : List (Nat × String) :=
  hlAux hl_lines hl_color 0 tokensource

/-- Modelled from the spec: the upstream pygments stage
`HtmlFormatter._format_lines` is not part of this repository.  Per the spec
(section 4.3 and section 8), by the time `_highlight_lines` post-processes the
stream, the escaped source has been cut at newline boundaries and each physical
line is emitted as one pair tagged `1` carrying that line's content. -/
def formatLines (escapedLines : List String) : List (Nat × String) :=
  escapedLines.map (fun l => (1, l))

/-- Embedding of the pygments token categories used by the element.
`PygToken.Text` is `Token.Text`, the "plain text" category; the other
constructors stand for the remaining lexical categories. -/
inductive PygToken
  | Text
  | Keyword
  | StringLit
  | Comment
  | Other
deriving DecidableEq

/-- Embedding of `NoHighlightingLexer.get_tokens_unprocessed`
(pl-code.py lines 31-32): `return [(0, Token.Text, text)]`. -/
def NoHighlightingLexer.get_tokens_unprocessed (text : String) : List (Nat × PygToken × String) :=
  [(0, PygToken.Text, text)]

/-- Embedding of Python's `str.isspace()`: true exactly for a nonempty string
all of whose characters are whitespace (note `"".isspace()` is `False`). -/
def pyIsSpace (s : String) : Bool :=
  !s.data.isEmpty && s.data.all isPyWS

/-- The attributes of a `<pl-code>` element that `prepare` reads, after lxml
parsing: `element.text` is `none` when the element has no text node. -/
structure Element where
  language : Option String
  text : Option String
  source_file_name : Option String
  highlight_lines : Option String

/-- Embedding of the condition on pl-code.py line 101:
`element.text is not None and not str(element.text).isspace()`, guarded by
`source_file_name is not None` on line 100. -/
def mixedContentError (source_file_name text : Option String) : Bool :=
  source_file_name.isSome
    && (match text with
        | none => false
        | some t => !pyIsSpace t)

/-- The kinds of Python exceptions `prepare` can raise: a `TypeError` coming
from the runtime, or an explicitly raised `Exception` with its message. -/
inductive PrepError
  | typeError (msg : String)
  | exception (msg : String)
deriving DecidableEq

/-- Embedding of pl-code.py lines 96-97.  The source calls
`map(pygments.lexers.get_all_lexers(), lambda tup: tup[1][0])`, with `map`'s
two arguments swapped.  Python's `map` requires every argument after the first
to be an iterable and checks this when the map object is constructed, so line
96 raises `TypeError: 'function' object is not iterable` immediately (the
lambda is the offending non-iterable argument; the generator is never called
and the f-string join on line 97 never runs).  The intended `Exception`
message, which would have named the language, is never built, so the raised
error carries only the runtime's message (Python quotes the type name
`function` in it) and not the language name. -/
def unknownLanguageError : PrepError :=
  PrepError.typeError "function object is not iterable"

/-- Embedding of the language check of `prepare` (pl-code.py lines 91-97).
`knownLanguage` stands for the external pygments lexer catalogue:
`knownLanguage lang = true` when `get_lexer_by_name(lang)` succeeds. -/
def checkLanguage (knownLanguage : String → Bool) (e : Element) : Except PrepError Unit :=
  match e.language with
  | none => Except.ok ()
  | some lang =>
    if knownLanguage lang then Except.ok ()
    else Except.error unknownLanguageError

/-- Embedding of the source-file-name check of `prepare`
(pl-code.py lines 99-102). -/
def checkSourceFile (e : Element) : Except PrepError Unit :=
  if mixedContentError e.source_file_name e.text then
    Except.error (PrepError.exception
      "Existing code cannot be added inside html element when \"source-file-name\" attribute is used.")
  else Except.ok ()

/-- Embedding of the highlight-lines check of `prepare`
(pl-code.py lines 104-107). -/
def checkHighlightLines (e : Element) : Except PrepError Unit :=
  match e.highlight_lines with
  | none => Except.ok ()
  | some h =>
    if (parse_highlight_lines h).isNone then
      Except.error (PrepError.exception "Could not parse highlight-lines attribute; check your syntax")
    else Except.ok ()

/-- Embedding of `prepare` (pl-code.py lines 85-107): the three checks run in
source order and the first failure is the raised exception. -/
def prepare (knownLanguage : String → Bool) (e : Element) : Except PrepError Unit := do
  checkLanguage knownLanguage e
  checkSourceFile e
  checkHighlightLines e

/-- Embedding of Python's `s[:-k]` (all characters but the last `k`; the whole
string is shorter than `k` gives the empty string). -/
def pySliceDropLast (s : String) (k : Nat) : String :=
  String.mk (s.data.take (s.data.length - k))

/-- Embedding of the "Chop off ending newlines" step of `render`'s
file-sourced branch (pl-code.py lines 130-134):

`if code[:-2] == '\r\n': code = code[:-2]`

`if code[:-1] == '\n': code = code[:-1]`. -/
def chopEndingNewlines (code : String) : String :=
  let code1 := if pySliceDropLast code 2 = "\r\n" then pySliceDropLast code 2 else code
  if pySliceDropLast code1 1 = "\n" then pySliceDropLast code1 1 else code1

theorem splitChars_ne_nil (sep : Char) (cs : List Char) : splitChars sep cs ≠ [] := by
  induction cs with
  | nil => simp [splitChars]
  | cons c cs ih =>
    simp only [splitChars]
    cases h : splitChars sep cs with
    | nil => simp
    | cons h0 t0 =>
      by_cases hc : c == sep <;> simp [hc]

theorem splitChars_single (sep : Char) (cs P : List Char)
    (h : splitChars sep cs = [P]) : cs = P := by
  induction cs generalizing P with
  | nil => simpa [splitChars] using h.symm
  | cons c cs ih =>
    cases hs : splitChars sep cs with
    | nil => exact absurd hs (splitChars_ne_nil sep cs)
    | cons h0 t0 =>
      simp only [splitChars, hs] at h
      by_cases hc : (c == sep) = true
      · rw [if_pos hc] at h
        simp at h
      · rw [if_neg hc] at h
        simp only [List.cons.injEq] at h
        obtain ⟨hP, ht0⟩ := h
        rw [ht0] at hs
        rw [ih h0 hs]
        exact hP

theorem splitChars_join (sep : Char) (cs A B : List Char)
    (h : splitChars sep cs = [A, B]) : cs = A ++ sep :: B := by
  induction cs generalizing A B with
  | nil => simp [splitChars] at h
  | cons c cs ih =>
    cases hs : splitChars sep cs with
    | nil => exact absurd hs (splitChars_ne_nil sep cs)
    | cons h0 t0 =>
      simp only [splitChars, hs] at h
      by_cases hc : (c == sep) = true
      · rw [if_pos hc] at h
        simp only [List.cons.injEq] at h
        obtain ⟨hA, hB, ht0⟩ := h
        subst hA
        subst hB
        rw [ht0] at hs
        have hcs := splitChars_single sep cs h0 hs
        have hceq : c = sep := by simpa using hc
        rw [hcs, hceq]
        simp
      · rw [if_neg hc] at h
        simp only [List.cons.injEq] at h
        obtain ⟨hA, ht0⟩ := h
        subst hA
        rw [ht0] at hs
        have hcs := ih h0 B hs
        rw [hcs]
        simp

theorem splitChars_no_sep (sep : Char) (cs P : List Char)
    (h : P ∈ splitChars sep cs) : sep ∉ P := by
  induction cs generalizing P with
  | nil =>
    simp [splitChars] at h
    simp [h]
  | cons c cs ih =>
    cases hs : splitChars sep cs with
    | nil => exact absurd hs (splitChars_ne_nil sep cs)
    | cons h0 t0 =>
      simp only [splitChars, hs] at h
      by_cases hc : (c == sep) = true
      · rw [if_pos hc] at h
        rcases List.mem_cons.mp h with rfl | hmem
        · simp
        · exact ih P (by rw [hs]; exact hmem)
      · rw [if_neg hc] at h
        rcases List.mem_cons.mp h with rfl | hmem
        · intro hmem2
          rcases List.mem_cons.mp hmem2 with rfl | hmem3
          · simp at hc
          · exact ih h0 (by rw [hs]; exact List.mem_cons_self h0 t0) hmem3
        · exact ih P (by rw [hs]; exact List.mem_cons_of_mem h0 hmem)

theorem digit_ne_dash {c : Char} (h : c.isDigit = true) : (c == '-') = false := by
  by_cases hc : c = '-'
  · subst hc; exact absurd h (by decide)
  · simpa using hc

theorem digit_ne_plus {c : Char} (h : c.isDigit = true) : (c == '+') = false := by
  by_cases hc : c = '+'
  · subst hc; exact absurd h (by decide)
  · simpa using hc

theorem digitsToNat_of_digits {cs : List Char}
    (h : (!cs.isEmpty && cs.all Char.isDigit) = true) :
    digitsToNat cs = some (digitVal cs) := by
  simp [digitsToNat, h]

theorem digitsToNat_none_of_mem {cs : List Char} {c : Char}
    (hmem : c ∈ cs) (hc : c.isDigit = false) : digitsToNat cs = none := by
  have : cs.all Char.isDigit = false := by
    rw [Bool.eq_false_iff]
    intro hall
    rw [List.all_eq_true] at hall
    have := hall c hmem
    rw [hc] at this
    exact Bool.false_ne_true this
  simp [digitsToNat, this]

theorem pyIntCore_of_digits {cs : List Char}
    (h : (!cs.isEmpty && cs.all Char.isDigit) = true) :
    pyIntCore cs = some ((digitVal cs : Nat) : Int) := by
  cases cs with
  | nil => simp at h
  | cons c ds =>
    have hd : c.isDigit = true := by
      simp only [Bool.and_eq_true, List.all_eq_true] at h
      exact h.2 c (List.mem_cons_self c ds)
    simp only [pyIntCore, digit_ne_dash hd, digit_ne_plus hd, if_neg, Bool.false_eq_true,
      not_false_eq_true]
    rw [digitsToNat_of_digits h]
    rfl

theorem trimWS_nil : trimWS [] = [] := rfl

theorem pyIntCore_none_of_split {t n0 n1 : List Char}
    (hsp : splitChars '-' t = [n0, n1])
    (hn0 : n0 ≠ []) : pyIntCore t = none := by
  have hjoin : t = n0 ++ '-' :: n1 := splitChars_join '-' t n0 n1 hsp
  have hnosep : '-' ∉ n0 :=
    splitChars_no_sep '-' t n0 (by rw [hsp]; exact List.mem_cons_self n0 [n1])
  cases n0 with
  | nil => exact absurd rfl hn0
  | cons x xs =>
    have hx : x ≠ '-' := fun hx => hnosep (hx ▸ List.mem_cons_self x xs)
    have hmem : '-' ∈ xs ++ '-' :: n1 := by
      simp
    subst hjoin
    simp only [List.cons_append, pyIntCore]
    have hxb : (x == '-') = false := by simpa using hx
    rw [hxb]
    simp only [Bool.false_eq_true, if_neg, not_false_eq_true]
    by_cases hplus : x == '+'
    · rw [if_pos hplus, digitsToNat_none_of_mem hmem (by decide)]
      rfl
    · rw [if_neg (by simpa using hplus)]
      rw [digitsToNat_none_of_mem (List.mem_cons_of_mem x hmem) (by decide)]
      rfl

theorem parseComponent_of_specTerm {comp : String} {l : List Int}
    (h : specTermLines comp = some l) : parseComponent comp = some l := by
  unfold specTermLines at h
  unfold parseComponent
  by_cases hd : (!(trimWS comp.data).isEmpty && (trimWS comp.data).all Char.isDigit) = true
  · rw [if_pos hd] at h
    simp only [pyIntCore_of_digits hd]
    exact h
  · rw [if_neg hd] at h
    cases hsp : splitChars '-' (trimWS comp.data) with
    | nil => exact absurd hsp (splitChars_ne_nil _ _)
    | cons p0 rest =>
      cases rest with
      | nil =>
        simp only [hsp] at h
        exact Option.noConfusion h
      | cons p1 rest2 =>
        cases rest2 with
        | cons q rest3 =>
          simp only [hsp] at h
          exact Option.noConfusion h
        | nil =>
          simp only [hsp] at h
          by_cases hg : ((!(trimWS p0).isEmpty && (trimWS p0).all Char.isDigit)
              && (!(trimWS p1).isEmpty && (trimWS p1).all Char.isDigit)) = true
          · rw [if_pos hg] at h
            have hg0 := ((Bool.and_eq_true _ _).mp hg).1
            have hg1 := ((Bool.and_eq_true _ _).mp hg).2
            have hp0ne : p0 ≠ [] := by
              intro hnil
              rw [hnil, trimWS_nil] at hg0
              simp at hg0
            simp only [pyIntCore_none_of_split hsp hp0ne, hsp, pyInt,
              pyIntCore_of_digits hg0, pyIntCore_of_digits hg1]
            exact h
          · rw [if_neg hg] at h
            exact absurd h (by simp)

theorem parseComponents_of_specTerms {L : List String}
    (h : ∀ c ∈ L, (specTermLines c).isSome) :
    parseComponents L = some ((L.map (fun c => (specTermLines c).getD [])).flatten) := by
  induction L with
  | nil => simp [parseComponents]
  | cons c cs ih =>
    have hc := h c (List.mem_cons_self c cs)
    obtain ⟨lc, hlc⟩ := Option.isSome_iff_exists.mp hc
    have hrest := ih (fun d hd => h d (List.mem_cons_of_mem c hd))
    simp only [parseComponents, parseComponent_of_specTerm hlc, hrest]
    simp [hlc]

theorem parseComponents_none_of_mem {L : List String} {c : String}
    (hmem : c ∈ L) (hc : parseComponent c = none) : parseComponents L = none := by
  induction L with
  | nil => simp at hmem
  | cons d ds ih =>
    rcases List.mem_cons.mp hmem with rfl | hmem2
    · simp [parseComponents, hc]
    · simp only [parseComponents, ih hmem2]
      cases parseComponent d <;> rfl

theorem parseComponents_sound {L : List String} {l : List Int}
    (h : parseComponents L = some l) :
    ∀ x ∈ l, ∃ c ∈ L, ∃ lc, parseComponent c = some lc ∧ x ∈ lc := by
  induction L generalizing l with
  | nil =>
    simp [parseComponents] at h
    subst h
    simp
  | cons c cs ih =>
    simp only [parseComponents] at h
    cases hc : parseComponent c with
    | none => rw [hc] at h; exact absurd h (by simp)
    | some lc =>
      rw [hc] at h
      cases hrest : parseComponents cs with
      | none => rw [hrest] at h; exact absurd h (by simp)
      | some rest =>
        rw [hrest] at h
        simp only [Option.some.injEq] at h
        subst h
        intro x hx
        rcases List.mem_append.mp hx with hx1 | hx2
        · exact ⟨c, List.mem_cons_self c cs, lc, hc, hx1⟩
        · obtain ⟨d, hd, ld, hld, hxld⟩ := ih hrest x hx2
          exact ⟨d, List.mem_cons_of_mem c hd, ld, hld, hxld⟩

theorem parseComponents_delete {pre post : List String} {comp : String}
    (h : parseComponent comp = some []) :
    parseComponents (pre ++ comp :: post) = parseComponents (pre ++ post) := by
  induction pre with
  | nil =>
    simp only [List.nil_append, parseComponents, h]
    cases parseComponents post <;> simp
  | cons c cs ih =>
    simp only [List.cons_append, parseComponents, List.append_eq, ih]

theorem hlAux_formatLines_get? (hl : List Int) (color : String) (lines : List String) :
    ∀ (n i : Nat), (hlAux hl color n (formatLines lines)).get? i
      = (lines.get? i).map
          (fun l => (1, if ((n + i : Nat) : Int) + 1 ∈ hl then wrapHl color l else l)) := by
  induction lines with
  | nil => intro n i; simp [formatLines, hlAux]
  | cons l ls ih =>
    intro n i
    cases i with
    | zero =>
      simp [formatLines, hlAux, Nat.add_zero]
    | succ j =>
      have hstep : (hlAux hl color n (formatLines (l :: ls))).get? (j + 1)
          = (hlAux hl color (n + 1) (formatLines ls)).get? j := by
        simp [formatLines, hlAux]
      rw [hstep, ih (n + 1) j]
      rw [show n + 1 + j = n + (j + 1) from by omega]
      simp

theorem hlAux_dup_of_get? (hl : List Int) (color : String) :
    ∀ (src : List (Nat × String)) (n i : Nat) (t : Nat) (v : String),
    src.get? i = some (t, v) → t ≠ 1 →
    ∃ pre post, hlAux hl color n src
      = pre ++ (t, v) :: (1, if ((n + i : Nat) : Int) + 1 ∈ hl then wrapHl color v else v) :: post := by
  intro src
  induction src with
  | nil => intro n i t v h _; simp at h
  | cons p rest ih =>
    intro n i t v h ht
    obtain ⟨pt, pv⟩ := p
    cases i with
    | zero =>
      simp only [List.get?_cons_zero, Option.some.injEq, Prod.mk.injEq] at h
      obtain ⟨rfl, rfl⟩ := h
      refine ⟨[], hlAux hl color (n + 1) rest, ?_⟩
      simp [hlAux, ht, Nat.add_zero]
    | succ j =>
      simp only [List.get?_cons_succ] at h
      obtain ⟨pre, post, heq⟩ := ih (n + 1) j t v h ht
      refine ⟨((if pt ≠ 1 then [(pt, pv)] else [])
        ++ [(1, if ((n : Int) + 1) ∈ hl then wrapHl color pv else pv)]) ++ pre, post, ?_⟩
      rw [show n + 1 + j = n + (j + 1) from by omega] at heq
      simp [hlAux, heq]

theorem listTake_one {α : Type} (x : α) (xs : List α) : (x :: xs).take 1 = [x] := rfl

theorem listTake_two {α : Type} (x y : α) (xs : List α) : (x :: y :: xs).take 2 = [x, y] := rfl

theorem listTake_three {α : Type} (x y z : α) (xs : List α) :
    (x :: y :: z :: xs).take 3 = [x, y, z] := rfl

/-- The claim C1: each highlighted physical line is enclosed in exactly one
highlight-wrapper span carrying the configured background color,
non-highlighted lines are not wrapped, and all escaped lines appear in their
original order.  The first conjunct states this pointwise for every input:
output position `i` holds exactly the line at input position `i`, wrapped
exactly when `i + 1` is in the highlight set.  The second conjunct is the
spec's 3-line example with line 2 highlighted and color `#ff0000`: the output
is the three lines in order, with exactly one wrapper span, enclosing only the
content of physical line 2. -/
theorem c1_highlight_wrapper_per_line :
    (∀ (hl : List Int) (color : String) (lines : List String) (i : Nat),
      (highlight_lines hl color (formatLines lines)).get? i
        = (lines.get? i).map
            (fun l => (1, if ((i : Int) + 1) ∈ hl then wrapHl color l else l)))
    ∧ highlight_lines [2] "#ff0000" (formatLines ["a\n", "b\n", "c\n"])
        = [(1, "a\n"),
           (1, "<span class=\"pl-code-highlighted-line\" style=\"background-color: #ff0000\">b\n</span>"),
           (1, "c\n")] := by
  constructor
  · intro hl color lines i
    have h := hlAux_formatLines_get? hl color lines 0 i
    rw [show (0 : Nat) + i = i from by omega] at h
    exact h
  · decide

/-- The claim C2: `parse_highlight_lines` maps `"5"` to `{5}`, `"1-3"` to
`{1,2,3}`, `"1-3,5,7-8"` to `{1,2,3,5,7,8}`, and in general, on every
specification that is well formed per the spec grammar (every comma-separated
term denotes per `specTermLines`), the result is the concatenation — hence as
a set the union — of the singleton or inclusive range each term denotes. -/
theorem c2_parse_highlight_lines_grammar :
    parse_highlight_lines "5" = some [5]
    ∧ parse_highlight_lines "1-3" = some [1, 2, 3]
    ∧ parse_highlight_lines "1-3,5,7-8" = some [1, 2, 3, 5, 7, 8]
    ∧ ∀ s : String, (∀ c ∈ pySplit ',' s, (specTermLines c).isSome) →
        parse_highlight_lines s
          = some (((pySplit ',' s).map (fun c => (specTermLines c).getD [])).flatten) := by
  refine ⟨by decide, by decide, by decide, ?_⟩
  intro s h
  exact parseComponents_of_specTerms h

theorem c2_parse_highlight_lines_grammar_witness :
    (∀ c ∈ pySplit ',' " 2 - 4 ,7", (specTermLines c).isSome)
    ∧ parse_highlight_lines " 2 - 4 ,7"
        = some (((pySplit ',' " 2 - 4 ,7").map (fun c => (specTermLines c).getD [])).flatten) :=
  ⟨by decide, c2_parse_highlight_lines_grammar.2.2.2 " 2 - 4 ,7" (by decide)⟩

/-- The claim C3: any failing term (the empty specification and terms with
non-numeric tokens included) makes `parse_highlight_lines` reject the entire
specification with `none` — nothing already parsed is kept — and `prepare` surfaces a
present-but-malformed highlight-lines attribute as a raised exception. -/
theorem c3_reject_malformed_spec :
    parse_highlight_lines "" = none
    ∧ (∀ (s c : String), c ∈ pySplit ',' s → parseComponent c = none →
        parse_highlight_lines s = none)
    ∧ parse_highlight_lines "1,x" = none
    ∧ parse_highlight_lines "1-2-3" = none
    ∧ (∀ (kl : String → Bool) (e : Element) (hspec : String),
        checkLanguage kl e = Except.ok () →
        checkSourceFile e = Except.ok () →
        e.highlight_lines = some hspec →
        parse_highlight_lines hspec = none →
        prepare kl e = Except.error (PrepError.exception
          "Could not parse highlight-lines attribute; check your syntax")) := by
  refine ⟨by decide, ?_, by decide, by decide, ?_⟩
  · intro s c hmem hc
    exact parseComponents_none_of_mem hmem hc
  · intro kl e hspec hcl hsf hh hp
    unfold prepare
    rw [hcl, hsf]
    simp only [Bind.bind, Except.bind]
    unfold checkHighlightLines
    simp only [hh, hp]
    rfl

theorem c3_reject_malformed_spec_witness :
    ("zz" ∈ pySplit ',' "2,zz" ∧ parseComponent "zz" = none
      ∧ parse_highlight_lines "2,zz" = none)
    ∧ prepare (fun _ => true) ⟨none, none, none, some "zz"⟩
        = Except.error (PrepError.exception
            "Could not parse highlight-lines attribute; check your syntax") :=
  ⟨⟨by decide, by decide, c3_reject_malformed_spec.2.1 "2,zz" "zz" (by decide) (by decide)⟩,
   c3_reject_malformed_spec.2.2.2.2 (fun _ => true) ⟨none, none, none, some "zz"⟩ "zz"
     rfl rfl rfl (by decide)⟩

/-- The claim C4: the pass-through tokenizer produces exactly one token, its
category is plain text (`Token.Text`), its text equals the entire input, and
concatenating the token texts in order reconstructs the input exactly. -/
theorem c4_no_highlighting_lexer_single_token (text : String) :
    NoHighlightingLexer.get_tokens_unprocessed text = [(0, PygToken.Text, text)]
    ∧ (NoHighlightingLexer.get_tokens_unprocessed text).length = 1
    ∧ String.join ((NoHighlightingLexer.get_tokens_unprocessed text).map (fun p => p.2.2))
        = text := by
  refine ⟨rfl, rfl, ?_⟩
  obtain ⟨d⟩ := text
  rfl

/-- The claim C5: a range term `a-b` with `a > b` contributes no line numbers
(first conjunct: such a component parses to the empty contribution `[]`),
deleting such a component from the component list does not change the overall
result (second conjunct: the remaining terms are processed normally), and
the concrete spec `"5-3,7"` parses to `[7]`. -/
theorem c5_reversed_range_empty :
    (∀ (comp : String) (n0 n1 : List Char) (a b : Int),
      pyIntCore (trimWS comp.data) = none →
      splitChars '-' (trimWS comp.data) = [n0, n1] →
      pyInt n0 = some a → pyInt n1 = some b → b < a →
      parseComponent comp = some [])
    ∧ (∀ (pre post : List String) (comp : String),
      parseComponent comp = some [] →
      parseComponents (pre ++ comp :: post) = parseComponents (pre ++ post))
    ∧ parse_highlight_lines "5-3,7" = some [7] := by
  refine ⟨?_, ?_, by decide⟩
  · intro comp n0 n1 a b hint hsp ha hb hba
    unfold parseComponent
    simp only [hint, hsp, ha, hb]
    have htn : (b + 1 - a).toNat = 0 := by omega
    simp [intRange, htn]
  · intro pre post comp h
    exact parseComponents_delete h

theorem c5_reversed_range_empty_witness :
    (pyIntCore (trimWS "5-3".data) = none
      ∧ splitChars '-' (trimWS "5-3".data) = [['5'], ['3']]
      ∧ pyInt ['5'] = some 5 ∧ pyInt ['3'] = some 3 ∧ (3 : Int) < 5)
    ∧ parseComponent "5-3" = some []
    ∧ parseComponents (["1"] ++ "5-3" :: ["7"]) = parseComponents (["1"] ++ ["7"]) :=
  ⟨⟨by decide, by decide, by decide, by decide, by decide⟩,
   c5_reversed_range_empty.1 "5-3" ['5'] ['3'] 5 3 (by decide) (by decide) (by decide)
     (by decide) (by decide),
   c5_reversed_range_empty.2.1 ["1"] ["7"] "5-3"
     (c5_reversed_range_empty.1 "5-3" ['5'] ['3'] 5 3 (by decide) (by decide) (by decide)
       (by decide) (by decide))⟩

/-- The claim C6 as stated is false: the accepted specification `"0"` yields
the element `0`, which is not positive. -/
theorem c6_positive_lines_counterexample :
    parse_highlight_lines "0" = some [0] ∧ (0 : Int) ∈ [(0 : Int)] ∧ ¬(0 < (0 : Int)) :=
  ⟨by decide, by decide, by decide⟩

/-- The claim C6, amended: for every specification that `parse_highlight_lines`
accepts, every element of the resulting line set is an integer contributed by
one of the specification's comma-separated components (as that component's
parsed contribution); the parser performs no positivity check, so nothing
stronger than membership in a component's contribution holds. -/
theorem c6_lineset_provenance (s : String) (l : List Int)
    (h : parse_highlight_lines s = some l) :
    ∀ x ∈ l, ∃ c ∈ pySplit ',' s, ∃ lc, parseComponent c = some lc ∧ x ∈ lc :=
  parseComponents_sound h

theorem c6_lineset_provenance_witness :
    parse_highlight_lines "4" = some [4]
    ∧ ∃ c ∈ pySplit ',' "4", ∃ lc, parseComponent c = some lc ∧ (4 : Int) ∈ lc :=
  ⟨by decide, c6_lineset_provenance "4" [4] (by decide) 4 (by decide)⟩

/-- The claim C7 describes the intent of pl-code.py lines 91-97, but the code
has a slip: when the language is unknown, `prepare` raises the `TypeError`
produced by the swapped arguments of `map` (line 96), not the intended
validation `Exception` naming the offending language and listing the allowed
ones.  This theorem evaluates the embedded code on any unknown language. -/
theorem c7_unknown_language_type_error (kl : String → Bool) (e : Element) (lang : String)
    (hl : e.language = some lang) (hk : kl lang = false) :
    prepare kl e = Except.error unknownLanguageError := by
  have hcl : checkLanguage kl e = Except.error unknownLanguageError := by
    unfold checkLanguage
    simp only [hl]
    rw [if_neg (by simp [hk])]
  unfold prepare
  rw [hcl]
  rfl

theorem c7_unknown_language_type_error_witness :
    (⟨some "nosuchlanguage", none, none, none⟩ : Element).language = some "nosuchlanguage"
    ∧ prepare (fun _ => false) ⟨some "nosuchlanguage", none, none, none⟩
        = Except.error unknownLanguageError :=
  ⟨rfl, c7_unknown_language_type_error (fun _ => false)
    ⟨some "nosuchlanguage", none, none, none⟩ "nosuchlanguage" rfl rfl⟩

/-- The claim C8: the mixing check of `prepare` raises exactly when a
source-file-name attribute is given and the element contains non-whitespace
inline text.  The hypothesis excludes the empty-string text value, which lxml
parsing never produces (an element with no text has `element.text = None`). -/
theorem c8_mixed_content_check (sfn t : Option String) (hne : t ≠ some "") :
    mixedContentError sfn t = true
      ↔ (sfn.isSome = true ∧ ∃ s, t = some s ∧ ∃ c ∈ s.data, isPyWS c = false) := by
  cases t with
  | none => simp [mixedContentError]
  | some s =>
    have hd : s.data ≠ [] := by
      intro h
      exact hne (by rw [String.ext h])
    simp only [mixedContentError, pyIsSpace, Option.some.injEq]
    constructor
    · intro h
      rw [Bool.and_eq_true] at h
      refine ⟨h.1, s, rfl, ?_⟩
      have h3 := h.2
      simp at h3
      rcases h3 with h3 | h3
      · exact absurd h3 hd
      · exact h3
    · rintro ⟨hsfn, s', hs', c, hc, hcp⟩
      subst hs'
      have hall : s.data.all isPyWS = false := by
        rw [Bool.eq_false_iff]
        intro hallt
        rw [List.all_eq_true] at hallt
        have hct := hallt c hc
        rw [hcp] at hct
        exact Bool.false_ne_true hct
      rw [Bool.and_eq_true]
      exact ⟨hsfn, by simp [hall]⟩

theorem c8_mixed_content_check_witness :
    ((some "x" : Option String) ≠ some "")
    ∧ (mixedContentError (some "code.py") (some "x") = true
        ↔ ((some "code.py" : Option String).isSome = true
            ∧ ∃ s, (some "x" : Option String) = some s ∧ ∃ c ∈ s.data, isPyWS c = false)) :=
  ⟨by decide, c8_mixed_content_check (some "code.py") (some "x") (by decide)⟩

/-- The claim C9: in `_highlight_lines`, every input pair `(t, value)` with
`t ≠ 1` has `value` emitted twice — once unchanged with its original tag,
immediately followed by a copy tagged `1` (wrapped when its 1-based position
is in `hl_lines`) — so the output stream contains the fragment more than
once. -/
theorem c9_nonline_pairs_duplicated (hl : List Int) (color : String)
    (src : List (Nat × String)) (i t : Nat) (v : String)
    (h : src.get? i = some (t, v)) (ht : t ≠ 1) :
    ∃ pre post, highlight_lines hl color src
      = pre ++ (t, v) :: (1, if ((i : Int) + 1) ∈ hl then wrapHl color v else v) :: post := by
  have hres := hlAux_dup_of_get? hl color src 0 i t v h ht
  rw [show (0 : Nat) + i = i from by omega] at hres
  exact hres

theorem c9_nonline_pairs_duplicated_witness :
    ([((0 : Nat), "x")] : List (Nat × String)).get? 0 = some (0, "x")
    ∧ (0 : Nat) ≠ 1
    ∧ ∃ pre post, highlight_lines [] "#b3d7ff" [(0, "x")]
        = pre ++ ((0 : Nat), "x")
            :: (1, if ((0 : Int) + 1) ∈ ([] : List Int) then wrapHl "#b3d7ff" "x" else "x")
            :: post :=
  ⟨rfl, by decide, c9_nonline_pairs_duplicated [] "#b3d7ff" [(0, "x")] 0 0 "x" rfl (by decide)⟩

/-- The claim C10: the trailing-newline removal step of `render`'s
file-sourced branch leaves the string unchanged for every input except those
of the exact forms `"\r\n"` followed by two characters or `"\n"` followed by
one character; in particular, ordinary file content ending in a newline keeps
its trailing newline. -/
theorem c10_chop_trailing_newlines_identity (code : String) :
    chopEndingNewlines code = code
      ↔ ¬((∃ a b : Char, code.data = ['\r', '\n', a, b]) ∨ (∃ a : Char, code.data = ['\n', a])) := by
  obtain ⟨l⟩ := code
  rcases l with _ | ⟨a, _ | ⟨b, _ | ⟨c, _ | ⟨d, _ | ⟨e, rest⟩⟩⟩⟩⟩
  · simp [chopEndingNewlines, pySliceDropLast, String.ext_iff]
  · simp [chopEndingNewlines, pySliceDropLast, String.ext_iff]
  · by_cases ha : a = '\n'
    · subst ha
      simp [chopEndingNewlines, pySliceDropLast, String.ext_iff, listTake_one]
    · simp [chopEndingNewlines, pySliceDropLast, String.ext_iff, listTake_one, ha]
  · simp [chopEndingNewlines, pySliceDropLast, String.ext_iff, listTake_one, listTake_two]
  · by_cases ha : a = '\r'
    · subst ha
      by_cases hb : b = '\n'
      · subst hb
        simp [chopEndingNewlines, pySliceDropLast, String.ext_iff, listTake_one, listTake_two,
          listTake_three]
      · simp [chopEndingNewlines, pySliceDropLast, String.ext_iff, listTake_one, listTake_two,
          listTake_three, hb]
    · simp [chopEndingNewlines, pySliceDropLast, String.ext_iff, listTake_one, listTake_two,
        listTake_three, ha]
  · have hc1 : ¬(pySliceDropLast ⟨a :: b :: c :: d :: e :: rest⟩ 2 = "\r\n") := by
      intro h
      have hlen := congrArg (fun s : String => s.data.length) h
      simp [pySliceDropLast, List.length_take] at hlen
    have hc2 : ¬(pySliceDropLast ⟨a :: b :: c :: d :: e :: rest⟩ 1 = "\n") := by
      intro h
      have hlen := congrArg (fun s : String => s.data.length) h
      simp [pySliceDropLast, List.length_take] at hlen
    simp [chopEndingNewlines, hc1, hc2, String.ext_iff]
